import Mathlib

/-!
Verification of the pw_kvs log-structured key-value store
(`key_value_store.cc`, `internal/entry.h`) against its specification.

The development shallowly embeds the store's bookkeeping logic:
sector descriptors, the sector allocator `FindSectorWithSpace`, the
garbage-collection victim selection `FindSectorToGarbageCollect` and
`GarbageCollectPartial` (embedded as `garbageCollectOne`), the `Init`
control flow, the append protocol `AppendEntry`/`CreateEntry`, the
read path `Get`/`FixedSizeGet`, the key-descriptor table operations
behind `Delete` and iteration, and `GetStorageStats`.

Machine integers are embedded as `Nat`; the 32-bit transaction id is
reduced modulo `2 ^ 32` exactly where the C++ `uint32_t` wraps.
Flash I/O and checksum outcomes are passed in as explicit oracle
arguments, so every embedded function is executable.
-/

/-- Status codes of pw_status used by the key-value store. -/
inductive Status where
  | ok
  | notFound
  | alreadyExists
  | invalidArgument
  | failedPrecondition
  | resourceExhausted
  | dataLoss
  | internal
  | unknown
  deriving DecidableEq, Repr

/-- Modelled from the spec: the per-sector counters of
`internal/sectors.h` (the file is not under src/; only its users are).
Spec 4.4 fixes the data: writable tail and valid bytes, with
recoverable bytes derived. -/
structure SectorDescriptor where
  writableBytes : Nat
  validBytes : Nat
  deriving DecidableEq, Repr

/-- Modelled from the spec: `empty(sector_size) = (writable_bytes == sector_size)`. -/
def SectorDescriptor.Empty (s : SectorDescriptor) (sectorSize : Nat) : Bool :=
  s.writableBytes == sectorSize

/-- Modelled from the spec: `has_space(n) = (writable_bytes >= n)`. -/
def SectorDescriptor.HasSpace (s : SectorDescriptor) (n : Nat) : Bool :=
  decide (n ≤ s.writableBytes)

/-- Modelled from the spec:
`recoverable_bytes(sector_size) = sector_size - writable - valid`. -/
def SectorDescriptor.RecoverableBytes (s : SectorDescriptor) (sectorSize : Nat) : Nat :=
  sectorSize - s.writableBytes - s.validBytes

/-- The two modes of `KeyValueStore::FindSectorWithSpace`. -/
inductive FindSectorMode where
  | appendEntry
  | garbageCollect
  deriving DecidableEq, Repr

/-- Result of `FindSectorWithSpace`: the returned status, the sector the
out-parameter `*found_sector` points at (`none` models `nullptr`), and
the value of `last_new_sector_` after the call (`none` models `nullptr`). -/
structure FindResult where
  status : Status
  found : Option Nat
  lastNewSector : Option Nat
  deriving DecidableEq, Repr

/-- The scanning loop of `KeyValueStore::FindSectorWithSpace`
(key_value_store.cc lines 939-965).  `order` is the list of sector
indices in visiting order; `firstEmpty` and `atLeastTwo` are the
`first_empty_sector` / `at_least_two_empty_sectors` accumulators.
`Sum.inl i` models the early `return` with a tier-1 (partial) sector. -/
def findSectorScan (sectors : List SectorDescriptor) (sectorSize size : Nat)
    (mode : FindSectorMode) (skip : List Nat) :
    List Nat → Option Nat → Bool → Sum Nat (Option Nat × Bool)
  | [], firstEmpty, atLeastTwo => Sum.inr (firstEmpty, atLeastTwo)
  | i :: rest, firstEmpty, atLeastTwo =>
      if skip.contains i then
        findSectorScan sectors sectorSize size mode skip rest firstEmpty atLeastTwo
      else
        let s := sectors.getD i ⟨0, 0⟩
        if s.Empty sectorSize = false ∧ s.HasSpace size = true ∧
            (mode = FindSectorMode.appendEntry ∨ s.RecoverableBytes sectorSize = 0) then
          Sum.inl i
        else if s.Empty sectorSize = true then
          match firstEmpty with
          | none => findSectorScan sectors sectorSize size mode skip rest (some i) atLeastTwo
          | some fe => findSectorScan sectors sectorSize size mode skip rest (some fe) true
        else
          findSectorScan sectors sectorSize size mode skip rest firstEmpty atLeastTwo

/-- `KeyValueStore::FindSectorWithSpace` (key_value_store.cc lines
905-982).  The scan starts one past `last_new_sector_` and wraps; after
the scan, if `at_least_two_empty_sectors` holds (initialized to true in
`kGarbageCollect` mode) both `last_new_sector_` and `*found_sector` are
set to `first_empty_sector` - even when no empty sector was seen, in
which case both become null - and OK is returned; otherwise the result
is RESOURCE_EXHAUSTED with a null `*found_sector`. -/
def findSectorWithSpace (sectors : List SectorDescriptor) (sectorSize size : Nat)
    (mode : FindSectorMode) (skip : List Nat) (lastNew : Nat) : FindResult :=
  let n := sectors.length
  let order := (List.range n).map (fun j => (lastNew + 1 + j) % n)
  match findSectorScan sectors sectorSize size mode skip order none
      (decide (mode = FindSectorMode.garbageCollect)) with
  | Sum.inl i => ⟨Status.ok, some i, some lastNew⟩
  | Sum.inr (firstEmpty, atLeastTwo) =>
      if atLeastTwo = true then ⟨Status.ok, firstEmpty, firstEmpty⟩
      else ⟨Status.resourceExhausted, none, some lastNew⟩

/-- C2: the claim says that when no tier-1 sector matches and no empty
sector (with the reserve rule, waived during GC) is available, the
allocator returns ResourceExhausted.  Evaluating the code at a concrete
failing input: in GarbageCollect mode with two full sectors (writable 0,
valid 4096, so no space and no recoverable bytes) and no empty sector,
`FindSectorWithSpace` instead returns OK with `*found_sector = nullptr`
(and nulls `last_new_sector_`), because `at_least_two_empty_sectors`
starts true in GC mode and `first_empty_sector` is still null.  Callers
(`RelocateEntry` via `AppendEntry`) dereference the null sector. -/
theorem C2_null_sector_on_gc_without_empty :
    findSectorWithSpace [⟨0, 4096⟩, ⟨0, 4096⟩] 4096 16
        FindSectorMode.garbageCollect [] 0
      = ⟨Status.ok, none, none⟩ := by decide

/-- The state of a key descriptor, `KeyDescriptor::State`. -/
inductive EntryState where
  | valid
  | deleted
  deriving DecidableEq, Repr

/-- The in-RAM key descriptor (`internal/key_descriptor.h`, declared in
src/ via `internal/entry.h`): key hash, transaction id, entry addresses,
and state. -/
structure KeyDescriptor where
  hash : Nat
  transactionId : Nat
  addresses : List Nat
  state : EntryState
  deriving DecidableEq, Repr

/-- `KeyDescriptor::address()`: the first address of the list. -/
def KeyDescriptor.address (kd : KeyDescriptor) : Nat :=
  kd.addresses.headD 0

/-- The transaction-id bump performed by `KeyValueStore::CreateEntry`
(key_value_store.cc line 1149): `last_transaction_id_ += 1` on a
`uint32_t` member (key_value_store.h line 466), hence modulo `2 ^ 32`. -/
def bumpTransactionId (id : Nat) : Nat :=
  (id + 1) % 2 ^ 32

/-- Result of `KeyValueStore::AppendEntry`: status, the target sector's
counters, the key descriptor, and `last_transaction_id_` after the call. -/
structure AppendOutcome where
  status : Status
  sector : SectorDescriptor
  descriptor : KeyDescriptor
  lastTransactionId : Nat
  deriving DecidableEq, Repr

/-- `KeyValueStore::AppendEntry` (key_value_store.cc lines 1096-1131)
together with the `CreateEntry` id bump it begins with.  The flash
outcomes are oracle inputs: `writeStatus` and `bytesWritten` model the
`StatusWithSize` of `Entry::Write`, and `verifyStatus` models
`VerifyChecksumInFlash`.  `RemoveWritableBytes` runs on the sector
regardless of the write outcome; `UpdateDescriptor` and `AddValidBytes`
run only after the write (and, under `verify_on_write`, the re-read
verification) succeeded. -/
def appendEntry (sector : SectorDescriptor) (kd : KeyDescriptor)
    (lastTid address : Nat) (newState : EntryState)
    (writeStatus : Status) (bytesWritten : Nat)
    (verifyOnWrite : Bool) (verifyStatus : Status) : AppendOutcome :=
  let tid := bumpTransactionId lastTid
  let sector1 : SectorDescriptor := ⟨sector.writableBytes - bytesWritten, sector.validBytes⟩
  if writeStatus ≠ Status.ok then
    ⟨writeStatus, sector1, kd, tid⟩
  else if verifyOnWrite = true ∧ verifyStatus ≠ Status.ok then
    ⟨verifyStatus, sector1, kd, tid⟩
  else
    ⟨Status.ok, ⟨sector1.writableBytes, sector1.validBytes + bytesWritten⟩,
      ⟨kd.hash, tid, [address], newState⟩, tid⟩

/-- C1 counterexample: creating an entry when `last_transaction_id_` is
`2 ^ 32 - 1` (reachable, since Init seeds the id from any entry read off
flash) wraps the `uint32_t` counter to 0 - a decrease, not an increase
by one.  So "last_transaction_id never decreases across the lifetime of
an initialized store" fails as stated. -/
theorem C1_wraparound_counterexample :
    (appendEntry ⟨4096, 0⟩ ⟨0, 0, [], EntryState.valid⟩ (2 ^ 32 - 1) 0
        EntryState.valid Status.ok 32 true Status.ok).lastTransactionId = 0 ∧
    (0 : Nat) < 2 ^ 32 - 1 := by decide

/-- C1 (amended): every entry creation sets `last_transaction_id` to
`(old + 1) mod 2 ^ 32`, independently of the write or verify outcome
(the bump happens before the write is attempted); whenever the counter
has not reached `2 ^ 32 - 1` this is a strict increase by exactly 1, so
the id never decreases while fewer than `2 ^ 32` ids have been burnt. -/
theorem C1_transaction_id_bump (sector : SectorDescriptor) (kd : KeyDescriptor)
    (lastTid address : Nat) (newState : EntryState)
    (writeStatus : Status) (bytesWritten : Nat)
    (verifyOnWrite : Bool) (verifyStatus : Status) :
    (appendEntry sector kd lastTid address newState writeStatus bytesWritten
        verifyOnWrite verifyStatus).lastTransactionId = (lastTid + 1) % 2 ^ 32 ∧
    (lastTid + 1 < 2 ^ 32 →
      (appendEntry sector kd lastTid address newState writeStatus bytesWritten
          verifyOnWrite verifyStatus).lastTransactionId = lastTid + 1) := by
  refine ⟨?_, ?_⟩
  · unfold appendEntry bumpTransactionId
    split <;> [rfl; split <;> rfl]
  · intro h
    unfold appendEntry bumpTransactionId
    split
    · exact Nat.mod_eq_of_lt h
    · split <;> exact Nat.mod_eq_of_lt h

/-- Witness for C1: with the id at 5 and the flash write failing with
DataLoss, the id still becomes 6. -/
theorem C1_transaction_id_bump_witness :
    (appendEntry ⟨4096, 0⟩ ⟨0, 0, [], EntryState.valid⟩ 5 0
        EntryState.valid Status.dataLoss 32 true Status.ok).lastTransactionId = 6 :=
  (C1_transaction_id_bump ⟨4096, 0⟩ ⟨0, 0, [], EntryState.valid⟩ 5 0
      EntryState.valid Status.dataLoss 32 true Status.ok).2 (by decide)

/-- C4: in the append protocol, `writable_bytes` drops by the bytes
actually written whatever the outcome; on a write error or (under
`verify_on_write`) a verify error, the status is that error and the key
descriptor and the sector's `valid_bytes` are untouched; on success the
descriptor is rewritten (bumped transaction id, the single new address,
the new state) and `valid_bytes` grows by the written size. -/
theorem C4_append_protocol (sector : SectorDescriptor) (kd : KeyDescriptor)
    (lastTid address : Nat) (newState : EntryState)
    (writeStatus : Status) (bytesWritten : Nat)
    (verifyOnWrite : Bool) (verifyStatus : Status)
    (hbw : bytesWritten ≤ sector.writableBytes) :
    let r := appendEntry sector kd lastTid address newState writeStatus bytesWritten
        verifyOnWrite verifyStatus
    r.sector.writableBytes + bytesWritten = sector.writableBytes ∧
    (writeStatus ≠ Status.ok →
      r.status = writeStatus ∧ r.descriptor = kd ∧
      r.sector.validBytes = sector.validBytes) ∧
    (writeStatus = Status.ok → verifyOnWrite = true → verifyStatus ≠ Status.ok →
      r.status = verifyStatus ∧ r.descriptor = kd ∧
      r.sector.validBytes = sector.validBytes) ∧
    (writeStatus = Status.ok → (verifyOnWrite = false ∨ verifyStatus = Status.ok) →
      r.status = Status.ok ∧
      r.descriptor = ⟨kd.hash, (lastTid + 1) % 2 ^ 32, [address], newState⟩ ∧
      r.sector.validBytes = sector.validBytes + bytesWritten) := by
  refine ⟨?_, ?_, ?_, ?_⟩
  · show (appendEntry sector kd lastTid address newState writeStatus bytesWritten
        verifyOnWrite verifyStatus).sector.writableBytes + bytesWritten
      = sector.writableBytes
    unfold appendEntry
    split
    · exact Nat.sub_add_cancel hbw
    · split <;> exact Nat.sub_add_cancel hbw
  · intro hws
    unfold appendEntry
    rw [if_pos hws]
    exact ⟨rfl, rfl, rfl⟩
  · intro hws hvow hvs
    unfold appendEntry
    rw [if_neg (by simp [hws]), if_pos ⟨hvow, hvs⟩]
    exact ⟨rfl, rfl, rfl⟩
  · intro hws hv
    unfold appendEntry bumpTransactionId
    rw [if_neg (by simp [hws]), if_neg (by rcases hv with h | h <;> simp [h])]
    exact ⟨rfl, rfl, rfl⟩

/-- Witness for C4 at two concrete inputs: a failed write leaves the
descriptor and valid bytes alone while writable shrinks; a verified
successful write updates both. -/
theorem C4_append_protocol_witness :
    ((appendEntry ⟨100, 7⟩ ⟨3, 9, [5], EntryState.valid⟩ 9 64 EntryState.valid
        Status.dataLoss 32 true Status.ok).status = Status.dataLoss ∧
      (appendEntry ⟨100, 7⟩ ⟨3, 9, [5], EntryState.valid⟩ 9 64 EntryState.valid
        Status.dataLoss 32 true Status.ok).descriptor = ⟨3, 9, [5], EntryState.valid⟩ ∧
      (appendEntry ⟨100, 7⟩ ⟨3, 9, [5], EntryState.valid⟩ 9 64 EntryState.valid
        Status.dataLoss 32 true Status.ok).sector.validBytes = 7) ∧
    ((appendEntry ⟨100, 7⟩ ⟨3, 9, [5], EntryState.valid⟩ 9 64 EntryState.deleted
        Status.ok 32 true Status.ok).status = Status.ok ∧
      (appendEntry ⟨100, 7⟩ ⟨3, 9, [5], EntryState.valid⟩ 9 64 EntryState.deleted
        Status.ok 32 true Status.ok).descriptor = ⟨3, 10, [64], EntryState.deleted⟩ ∧
      (appendEntry ⟨100, 7⟩ ⟨3, 9, [5], EntryState.valid⟩ 9 64 EntryState.deleted
        Status.ok 32 true Status.ok).sector.validBytes = 7 + 32) :=
  ⟨(C4_append_protocol ⟨100, 7⟩ ⟨3, 9, [5], EntryState.valid⟩ 9 64 EntryState.valid
      Status.dataLoss 32 true Status.ok (by decide)).2.1 (by decide),
    (C4_append_protocol ⟨100, 7⟩ ⟨3, 9, [5], EntryState.valid⟩ 9 64 EntryState.deleted
      Status.ok 32 true Status.ok (by decide)).2.2.2 rfl (Or.inr rfl)⟩

/-- Result of `KeyValueStore::Init`: the returned status, the
`initialized_` flag, and how many times `GarbageCollectPartial` ran. -/
structure InitOutcome where
  status : Status
  initialized : Bool
  gcRuns : Nat
  deriving DecidableEq, Repr

/-- The control flow of `KeyValueStore::Init` (key_value_store.cc lines
245-408).  The two structural passes over flash are abstracted into the
oracle `scan`: `Except.error st` models an early return from the scan
loops (UNKNOWN on an unexpected inner-loop error, or a propagated
`Entry::Read` failure in pass 2), and `Except.ok (emptySectorFound,
totalCorruptBytes)` models a completed scan.  `gcResult` is the outcome
of the single `GarbageCollectPartial()` call made when no empty sector
was observed. -/
def kvsInit (sectorCount maxSectors workingBufferSize sectorSize : Nat)
    (scan : Except Status (Bool × Nat)) (gcResult : Status) : InitOutcome :=
  if maxSectors < sectorCount then
    ⟨Status.failedPrecondition, false, 0⟩
  else if workingBufferSize < sectorSize then
    ⟨Status.invalidArgument, false, 0⟩
  else
    match scan with
    | Except.error st => ⟨st, false, 0⟩
    | Except.ok (emptySectorFound, totalCorruptBytes) =>
      if emptySectorFound = false then
        if gcResult ≠ Status.ok then ⟨Status.internal, false, 1⟩
        else ⟨if 0 < totalCorruptBytes then Status.dataLoss else Status.ok, true, 1⟩
      else ⟨if 0 < totalCorruptBytes then Status.dataLoss else Status.ok, true, 0⟩

/-- C3: when the first-pass scan completed and saw no fully empty
sector, Init runs `GarbageCollectPartial` exactly once, and if that GC
fails Init returns Internal with the store left uninitialized. -/
theorem C3_init_free_sector_invariant
    (sectorCount maxSectors wb ss corrupt : Nat) (gcResult : Status)
    (h1 : sectorCount ≤ maxSectors) (h2 : ss ≤ wb) :
    (kvsInit sectorCount maxSectors wb ss (Except.ok (false, corrupt)) gcResult).gcRuns
      = 1 ∧
    (gcResult ≠ Status.ok →
      kvsInit sectorCount maxSectors wb ss (Except.ok (false, corrupt)) gcResult
        = ⟨Status.internal, false, 1⟩) := by
  unfold kvsInit
  rw [if_neg (by omega), if_neg (by omega)]
  constructor
  · by_cases h : gcResult = Status.ok <;> simp [h]
  · intro h
    simp [h]

/-- Witness for C3: 4 sectors, capacity 8, buffer 4096 = sector size, no
empty sector seen, GC fails with ResourceExhausted. -/
theorem C3_init_free_sector_invariant_witness :
    (kvsInit 4 8 4096 4096 (Except.ok (false, 0)) Status.resourceExhausted).gcRuns = 1 ∧
    kvsInit 4 8 4096 4096 (Except.ok (false, 0)) Status.resourceExhausted
      = ⟨Status.internal, false, 1⟩ :=
  ⟨(C3_init_free_sector_invariant 4 8 4096 4096 0 Status.resourceExhausted
      (by decide) (by decide)).1,
    (C3_init_free_sector_invariant 4 8 4096 4096 0 Status.resourceExhausted
      (by decide) (by decide)).2 (by decide)⟩

/-- C7 counterexample: with the sector count within capacity but the
working buffer (100 B) smaller than one sector (4096 B), Init returns
InvalidArgument (key_value_store.cc line 264), not the FailedPrecondition
the claim states. -/
theorem C7_buffer_status_counterexample :
    kvsInit 2 8 100 4096 (Except.ok (true, 0)) Status.ok
        = ⟨Status.invalidArgument, false, 0⟩ ∧
    Status.invalidArgument ≠ Status.failedPrecondition := by decide

/-- C7 (amended): Init returns FailedPrecondition when the partition's
sector count exceeds the sector-table capacity, InvalidArgument (not
FailedPrecondition) when the working buffer is smaller than one sector,
and otherwise - once the scan completes and the free-sector invariant is
maintained - it marks the store initialized and returns DataLoss exactly
when corruption was observed and Ok otherwise. -/
theorem C7_init_status (sc ms wb ss corrupt : Nat)
    (scan : Except Status (Bool × Nat)) (ef : Bool) (gc : Status) :
    (ms < sc → kvsInit sc ms wb ss scan gc = ⟨Status.failedPrecondition, false, 0⟩) ∧
    (sc ≤ ms → wb < ss → kvsInit sc ms wb ss scan gc
        = ⟨Status.invalidArgument, false, 0⟩) ∧
    (sc ≤ ms → ss ≤ wb → scan = Except.ok (ef, corrupt) →
      (ef = true ∨ gc = Status.ok) →
      (kvsInit sc ms wb ss scan gc).initialized = true ∧
      (kvsInit sc ms wb ss scan gc).status
        = (if 0 < corrupt then Status.dataLoss else Status.ok)) := by
  refine ⟨?_, ?_, ?_⟩
  · intro h
    unfold kvsInit
    rw [if_pos h]
  · intro h1 h2
    unfold kvsInit
    rw [if_neg (by omega), if_pos h2]
  · intro h1 h2 hscan hef
    subst hscan
    unfold kvsInit
    rw [if_neg (by omega), if_neg (by omega)]
    rcases hef with hef | hef
    · subst hef
      simp
    · subst hef
      cases ef <;> simp

/-- Witness for C7 at concrete inputs: capacity overflow gives
FailedPrecondition; a small working buffer gives InvalidArgument; a
clean scan with an empty sector initializes the store with Ok. -/
theorem C7_init_status_witness :
    kvsInit 9 8 4096 4096 (Except.ok (true, 0)) Status.ok
        = ⟨Status.failedPrecondition, false, 0⟩ ∧
    kvsInit 2 8 100 4096 (Except.ok (true, 0)) Status.ok
        = ⟨Status.invalidArgument, false, 0⟩ ∧
    ((kvsInit 4 8 4096 4096 (Except.ok (true, 0)) Status.ok).initialized = true ∧
      (kvsInit 4 8 4096 4096 (Except.ok (true, 0)) Status.ok).status
        = (if (0 : Nat) < 0 then Status.dataLoss else Status.ok)) :=
  ⟨(C7_init_status 9 8 4096 4096 0 (Except.ok (true, 0)) true Status.ok).1 (by decide),
    (C7_init_status 2 8 100 4096 0 (Except.ok (true, 0)) true Status.ok).2.1
      (by decide) (by decide),
    (C7_init_status 4 8 4096 4096 0 (Except.ok (true, 0)) true Status.ok).2.2
      (by decide) (by decide) rfl (Or.inl rfl)⟩

/-- Modelled from the spec: `Entry::ReadValue` (entry.cc is not under
src/).  Spec 4.9: the value is read into the buffer starting at
`offset`; if the buffer is smaller than the remaining value the read is
truncated and reports ResourceExhausted with the bytes read still
returned.  Bytes are modelled as `Nat`, the buffer by its length; the
returned list is what lands in the caller's buffer. -/
def readValue (value : List Nat) (bufLen offset : Nat) : Status × List Nat :=
  let available := value.length - offset
  let data := (value.drop offset).take (min bufLen available)
  (if available ≤ bufLen then Status.ok else Status.resourceExhausted, data)

/-- The private `KeyValueStore::Get(key, descriptor, buffer, offset)`
(key_value_store.cc lines 660-679), after a successful `Entry::Read` of
the descriptor's entry.  `checksumMatches` is the oracle outcome of
`Entry::VerifyChecksum` over the read header, key and value (modelled
from the spec: mismatch yields DataLoss; entry.cc/checksum are not under
src/).  Returns the status, the reported size, and the bytes left in the
caller's buffer prefix that the call wrote. -/
def kvsGet (verifyOnRead checksumMatches : Bool)
    (value : List Nat) (bufLen offset : Nat) : Status × Nat × List Nat :=
  let r := readValue value bufLen offset
  if r.1 = Status.ok ∧ verifyOnRead = true ∧ offset = 0 then
    if checksumMatches then (Status.ok, r.2.length, r.2)
    else (Status.dataLoss, 0, List.replicate r.2.length 0)
  else (r.1, r.2.length, r.2)

/-- C6: with `verify_on_read` set and `offset == 0`, if the whole value
fits the buffer but the recomputed checksum does not match, the bytes
that were read into the caller's buffer are zeroed and Get returns
DataLoss with reported size 0. -/
theorem C6_verify_on_read_zeroes_buffer (value : List Nat) (bufLen : Nat)
    (hfit : value.length ≤ bufLen) :
    kvsGet true false value bufLen 0
      = (Status.dataLoss, 0, List.replicate value.length 0) := by
  unfold kvsGet readValue
  simp [Nat.min_eq_right hfit, hfit]

/-- Witness for C6: a 3-byte value read into an 8-byte buffer under a
checksum mismatch comes back as three zero bytes, DataLoss, size 0. -/
theorem C6_verify_on_read_zeroes_buffer_witness :
    kvsGet true false [1, 2, 3] 8 0 = (Status.dataLoss, 0, [0, 0, 0]) :=
  C6_verify_on_read_zeroes_buffer [1, 2, 3] 8 (by decide)

/-- `KeyValueStore::FixedSizeGet` (key_value_store.cc lines 692-709):
`ValueSize` reads the stored value's size from the entry header; a size
different from the requested object size returns InvalidArgument before
any read into the caller's object (`none` models the untouched object);
otherwise the byte-level Get runs over the object's bytes with offset 0. -/
def fixedSizeGet (verifyOnRead checksumMatches : Bool)
    (value : List Nat) (sizeBytes : Nat) : Status × Option (List Nat) :=
  if value.length ≠ sizeBytes then (Status.invalidArgument, none)
  else
    let r := kvsGet verifyOnRead checksumMatches value sizeBytes 0
    (r.1, some r.2.2)

/-- C10: the fixed-size Get overload returns InvalidArgument without
touching the caller's object whenever the stored size differs from the
requested size; when the sizes match it behaves as the byte-level Get,
and in particular copies the value exactly when verification passes (or
is disabled). -/
theorem C10_fixed_size_get (verifyOnRead checksumMatches : Bool)
    (value : List Nat) (sizeBytes : Nat) :
    (value.length ≠ sizeBytes →
      fixedSizeGet verifyOnRead checksumMatches value sizeBytes
        = (Status.invalidArgument, none)) ∧
    (value.length = sizeBytes →
      fixedSizeGet verifyOnRead checksumMatches value sizeBytes
        = ((kvsGet verifyOnRead checksumMatches value sizeBytes 0).1,
            some (kvsGet verifyOnRead checksumMatches value sizeBytes 0).2.2)) ∧
    (value.length = sizeBytes → (verifyOnRead = false ∨ checksumMatches = true) →
      fixedSizeGet verifyOnRead checksumMatches value sizeBytes
        = (Status.ok, some value)) := by
  refine ⟨?_, ?_, ?_⟩
  · intro h
    unfold fixedSizeGet
    rw [if_pos h]
  · intro h
    unfold fixedSizeGet
    rw [if_neg (by simp [h])]
  · intro h hv
    subst h
    unfold fixedSizeGet kvsGet readValue
    rcases hv with hv | hv <;> subst hv <;> simp

/-- Witness for C10: requesting 4 bytes of a 3-byte value is rejected
with the object untouched; requesting 3 bytes copies the value. -/
theorem C10_fixed_size_get_witness :
    fixedSizeGet true true [1, 2, 3] 4 = (Status.invalidArgument, none) ∧
    fixedSizeGet true true [1, 2, 3] 3 = (Status.ok, some [1, 2, 3]) :=
  ⟨(C10_fixed_size_get true true [1, 2, 3] 4).1 (by decide),
    (C10_fixed_size_get true true [1, 2, 3] 3).2.2 (by decide) (Or.inr rfl)⟩

/-- The sector at index `i` of the sector table (out-of-range reads give
a zeroed dummy; all theorems quantify within bounds). -/
def sectorAt (sectors : List SectorDescriptor) (i : Nat) : SectorDescriptor :=
  sectors.getD i ⟨0, 0⟩

/-- One candidate-selection loop of
`KeyValueStore::FindSectorToGarbageCollect` (key_value_store.cc lines
996-1031).  `pick` is the per-sector filter (`valid_bytes == 0` in step
1, everything in step 2); the accumulator is
`(sector_candidate, candidate_bytes)`, updated whenever the filter holds
and the sector's recoverable bytes strictly exceed the current
candidate bytes. -/
def gcScan (pick : SectorDescriptor → Bool) (sectors : List SectorDescriptor)
    (ss : Nat) : List Nat → Option Nat × Nat → Option Nat × Nat
  | [], acc => acc
  | i :: rest, acc =>
      if pick (sectorAt sectors i) = true ∧
          acc.2 < (sectorAt sectors i).RecoverableBytes ss then
        gcScan pick sectors ss rest (some i, (sectorAt sectors i).RecoverableBytes ss)
      else gcScan pick sectors ss rest acc

theorem gcScan_snd_le (pick : SectorDescriptor → Bool)
    (sectors : List SectorDescriptor) (ss : Nat) :
    ∀ (is : List Nat) (acc : Option Nat × Nat),
      acc.2 ≤ (gcScan pick sectors ss is acc).2 := by
  intro is
  induction is with
  | nil => intro acc; exact Nat.le_refl _
  | cons i rest ih =>
    intro acc
    simp only [gcScan]
    by_cases h : pick (sectorAt sectors i) = true ∧
        acc.2 < (sectorAt sectors i).RecoverableBytes ss
    · rw [if_pos h]
      exact Nat.le_trans (Nat.le_of_lt h.2)
        (ih (some i, (sectorAt sectors i).RecoverableBytes ss))
    · rw [if_neg h]
      exact ih acc

theorem gcScan_bound (pick : SectorDescriptor → Bool)
    (sectors : List SectorDescriptor) (ss : Nat) :
    ∀ (is : List Nat) (acc : Option Nat × Nat) (j : Nat), j ∈ is →
      pick (sectorAt sectors j) = true →
      (sectorAt sectors j).RecoverableBytes ss ≤ (gcScan pick sectors ss is acc).2 := by
  intro is
  induction is with
  | nil => intro acc j hj; exact absurd hj (List.not_mem_nil j)
  | cons i rest ih =>
    intro acc j hj hp
    rcases List.mem_cons.mp hj with hji | hjr
    · subst hji
      simp only [gcScan]
      by_cases h : pick (sectorAt sectors j) = true ∧
          acc.2 < (sectorAt sectors j).RecoverableBytes ss
      · rw [if_pos h]
        exact gcScan_snd_le pick sectors ss rest
          (some j, (sectorAt sectors j).RecoverableBytes ss)
      · rw [if_neg h]
        have hle : (sectorAt sectors j).RecoverableBytes ss ≤ acc.2 :=
          Nat.le_of_not_lt (fun hb => h ⟨hp, hb⟩)
        exact Nat.le_trans hle (gcScan_snd_le pick sectors ss rest acc)
    · simp only [gcScan]
      by_cases h : pick (sectorAt sectors i) = true ∧
          acc.2 < (sectorAt sectors i).RecoverableBytes ss
      · rw [if_pos h]
        exact ih _ j hjr hp
      · rw [if_neg h]
        exact ih acc j hjr hp

theorem gcScan_sound (pick : SectorDescriptor → Bool)
    (sectors : List SectorDescriptor) (ss : Nat) :
    ∀ (is : List Nat) (acc : Option Nat × Nat),
      gcScan pick sectors ss is acc = acc ∨
      ∃ j, j ∈ is ∧ (gcScan pick sectors ss is acc).1 = some j ∧
        pick (sectorAt sectors j) = true ∧
        (sectorAt sectors j).RecoverableBytes ss = (gcScan pick sectors ss is acc).2 ∧
        acc.2 < (gcScan pick sectors ss is acc).2 := by
  intro is
  induction is with
  | nil => intro acc; exact Or.inl rfl
  | cons i rest ih =>
    intro acc
    simp only [gcScan]
    by_cases h : pick (sectorAt sectors i) = true ∧
        acc.2 < (sectorAt sectors i).RecoverableBytes ss
    · rw [if_pos h]
      rcases ih (some i, (sectorAt sectors i).RecoverableBytes ss) with heq |
          ⟨j, hj, h1, h2, h3, h4⟩
      · refine Or.inr ⟨i, List.mem_cons_self i rest, ?_, h.1, ?_, ?_⟩
        · rw [heq]
        · rw [heq]
        · rw [heq]; exact h.2
      · exact Or.inr ⟨j, List.mem_cons_of_mem i hj, h1, h2, h3,
          Nat.lt_trans h.2 h4⟩
    · rw [if_neg h]
      rcases ih acc with heq | ⟨j, hj, h1, h2, h3, h4⟩
      · exact Or.inl heq
      · exact Or.inr ⟨j, List.mem_cons_of_mem i hj, h1, h2, h3, h4⟩

theorem gcScan_progress (pick : SectorDescriptor → Bool)
    (sectors : List SectorDescriptor) (ss : Nat)
    (is : List Nat) (acc : Option Nat × Nat)
    (hex : ∃ j, j ∈ is ∧ pick (sectorAt sectors j) = true ∧
      acc.2 < (sectorAt sectors j).RecoverableBytes ss) :
    ∃ k, k ∈ is ∧ (gcScan pick sectors ss is acc).1 = some k ∧
      pick (sectorAt sectors k) = true ∧
      (sectorAt sectors k).RecoverableBytes ss = (gcScan pick sectors ss is acc).2 ∧
      acc.2 < (gcScan pick sectors ss is acc).2 := by
  obtain ⟨j, hj, hp, hlt⟩ := hex
  have hb := gcScan_bound pick sectors ss is acc j hj hp
  have hacc : acc.2 < (gcScan pick sectors ss is acc).2 := Nat.lt_of_lt_of_le hlt hb
  rcases gcScan_sound pick sectors ss is acc with heq | hs
  · rw [heq] at hacc
    exact absurd hacc (Nat.lt_irrefl _)
  · exact hs

/-- `KeyValueStore::FindSectorToGarbageCollect` (key_value_store.cc
lines 996-1031): first look for the sector with the most recoverable
bytes among those with no valid bytes; only if none qualifies, look for
the sector with the most recoverable bytes overall.  The second loop
inherits `candidate_bytes` from the first (which left it at 0). -/
def findSectorToGarbageCollect (sectors : List SectorDescriptor) (ss : Nat) :
    Option Nat :=
  match gcScan (fun s => s.validBytes == 0) sectors ss
      (List.range sectors.length) (none, 0) with
  | (some i, _) => some i
  | (none, b) =>
      (gcScan (fun _ => true) sectors ss (List.range sectors.length) (none, b)).1

/-- `KeyValueStore::GarbageCollectPartial` (key_value_store.cc lines
1054-1067): pick a victim; with no victim the call is a no-op returning
Ok; otherwise `GarbageCollectSector` (abstracted as the oracle
`gcSector`, which yields the status and the sector table it leaves
behind) decides the outcome. -/
def garbageCollectOne (gcSector : Nat → Status × List SectorDescriptor)
    (sectors : List SectorDescriptor) (ss : Nat) : Status × List SectorDescriptor :=
  match findSectorToGarbageCollect sectors ss with
  | none => (Status.ok, sectors)
  | some i => gcSector i

/-- C5: victim selection for garbage collection.  If some sector has no
valid bytes and positive recoverable bytes, the victim is such a sector
with maximal recoverable bytes; otherwise, if any sector has recoverable
bytes, the victim has maximal recoverable bytes overall; and when no
sector has recoverable bytes there is no victim and
`GarbageCollectPartial` performs nothing and returns Ok. -/
theorem C5_gc_victim_selection (sectors : List SectorDescriptor) (ss : Nat) :
    (∀ gcSector : Nat → Status × List SectorDescriptor,
      (∀ i, i < sectors.length → (sectorAt sectors i).RecoverableBytes ss = 0) →
      findSectorToGarbageCollect sectors ss = none ∧
      garbageCollectOne gcSector sectors ss = (Status.ok, sectors)) ∧
    ((∃ i, i < sectors.length ∧ (sectorAt sectors i).validBytes = 0 ∧
        0 < (sectorAt sectors i).RecoverableBytes ss) →
      ∃ i, i < sectors.length ∧ findSectorToGarbageCollect sectors ss = some i ∧
        (sectorAt sectors i).validBytes = 0 ∧
        0 < (sectorAt sectors i).RecoverableBytes ss ∧
        ∀ j, j < sectors.length → (sectorAt sectors j).validBytes = 0 →
          (sectorAt sectors j).RecoverableBytes ss
            ≤ (sectorAt sectors i).RecoverableBytes ss) ∧
    ((∀ i, i < sectors.length → ¬((sectorAt sectors i).validBytes = 0 ∧
        0 < (sectorAt sectors i).RecoverableBytes ss)) →
      (∃ i, i < sectors.length ∧ 0 < (sectorAt sectors i).RecoverableBytes ss) →
      ∃ i, i < sectors.length ∧ findSectorToGarbageCollect sectors ss = some i ∧
        0 < (sectorAt sectors i).RecoverableBytes ss ∧
        ∀ j, j < sectors.length →
          (sectorAt sectors j).RecoverableBytes ss
            ≤ (sectorAt sectors i).RecoverableBytes ss) := by
  refine ⟨?_, ?_, ?_⟩
  · intro gcSector hz
    have hstep : ∀ pick : SectorDescriptor → Bool,
        gcScan pick sectors ss (List.range sectors.length) (none, 0) = (none, 0) := by
      intro pick
      rcases gcScan_sound pick sectors ss (List.range sectors.length) (none, 0) with
        heq | ⟨j, hj, _, _, h3, h4⟩
      · exact heq
      · rw [← h3] at h4
        rw [hz j (List.mem_range.mp hj)] at h4
        exact absurd h4 (Nat.lt_irrefl 0)
    have hfind : findSectorToGarbageCollect sectors ss = none := by
      unfold findSectorToGarbageCollect
      rw [hstep (fun s => s.validBytes == 0)]
      show (gcScan (fun _ => true) sectors ss
          (List.range sectors.length) (none, 0)).1 = none
      rw [hstep (fun _ => true)]
    refine ⟨hfind, ?_⟩
    unfold garbageCollectOne
    rw [hfind]
  · intro hex
    obtain ⟨i, hi, hv, hr⟩ := hex
    obtain ⟨k, hk, h1, h2, h3, h4⟩ := gcScan_progress (fun s => s.validBytes == 0)
      sectors ss (List.range sectors.length) (none, 0)
      ⟨i, List.mem_range.mpr hi, by simp [hv], hr⟩
    have hfind : findSectorToGarbageCollect sectors ss = some k := by
      unfold findSectorToGarbageCollect
      obtain ⟨o, b, hob⟩ : ∃ o b,
          gcScan (fun s => s.validBytes == 0) sectors ss
            (List.range sectors.length) (none, 0) = (o, b) := ⟨_, _, rfl⟩
      rw [hob] at h1
      simp only at h1
      rw [hob, h1]
    refine ⟨k, List.mem_range.mp hk, hfind, by simpa using h2, ?_, ?_⟩
    · rw [h3]
      exact h4
    · intro j hj hvj
      have := gcScan_bound (fun s => s.validBytes == 0) sectors ss
        (List.range sectors.length) (none, 0) j (List.mem_range.mpr hj) (by simp [hvj])
      rw [← h3] at this
      exact this
  · intro hno hex
    obtain ⟨i, hi, hr⟩ := hex
    have hstep1 : gcScan (fun s => s.validBytes == 0) sectors ss
        (List.range sectors.length) (none, 0) = (none, 0) := by
      rcases gcScan_sound (fun s => s.validBytes == 0) sectors ss
        (List.range sectors.length) (none, 0) with heq | ⟨j, hj, _, h2, h3, h4⟩
      · exact heq
      · exfalso
        rw [← h3] at h4
        exact hno j (List.mem_range.mp hj) ⟨by simpa using h2, h4⟩
    obtain ⟨k, hk, h1, _, h3, h4⟩ := gcScan_progress (fun _ => true)
      sectors ss (List.range sectors.length) (none, 0)
      ⟨i, List.mem_range.mpr hi, rfl, hr⟩
    have hfind : findSectorToGarbageCollect sectors ss = some k := by
      unfold findSectorToGarbageCollect
      rw [hstep1]
      exact h1
    refine ⟨k, List.mem_range.mp hk, hfind, ?_, ?_⟩
    · rw [h3]
      exact h4
    · intro j hj
      have := gcScan_bound (fun _ => true) sectors ss
        (List.range sectors.length) (none, 0) j (List.mem_range.mpr hj) rfl
      rw [← h3] at this
      exact this

/-- Witness for C5 at concrete sector tables: a table with a valid-free
reclaimable sector selects it over a larger reclaimable sector that
still holds valid bytes; an all-clean table makes GC a no-op. -/
theorem C5_gc_victim_selection_witness :
    (∃ i, i < 3 ∧
      findSectorToGarbageCollect [⟨4096, 0⟩, ⟨0, 4000⟩, ⟨1000, 0⟩] 4096 = some i ∧
      (sectorAt [⟨4096, 0⟩, ⟨0, 4000⟩, ⟨1000, 0⟩] i).validBytes = 0 ∧
      0 < (sectorAt [⟨4096, 0⟩, ⟨0, 4000⟩, ⟨1000, 0⟩] i).RecoverableBytes 4096 ∧
      ∀ j, j < 3 → (sectorAt [⟨4096, 0⟩, ⟨0, 4000⟩, ⟨1000, 0⟩] j).validBytes = 0 →
        (sectorAt [⟨4096, 0⟩, ⟨0, 4000⟩, ⟨1000, 0⟩] j).RecoverableBytes 4096
          ≤ (sectorAt [⟨4096, 0⟩, ⟨0, 4000⟩, ⟨1000, 0⟩] i).RecoverableBytes 4096) ∧
    (findSectorToGarbageCollect [⟨4096, 0⟩, ⟨0, 4096⟩] 4096 = none ∧
      garbageCollectOne (fun _ => (Status.internal, []))
        [⟨4096, 0⟩, ⟨0, 4096⟩] 4096 = (Status.ok, [⟨4096, 0⟩, ⟨0, 4096⟩])) :=
  ⟨(C5_gc_victim_selection [⟨4096, 0⟩, ⟨0, 4000⟩, ⟨1000, 0⟩] 4096).2.1
      ⟨2, by decide, by decide, by decide⟩,
    (C5_gc_victim_selection [⟨4096, 0⟩, ⟨0, 4096⟩] 4096).1
      (fun _ => (Status.internal, []))
      (by decide)⟩

/-- The `KeyValueStore::StorageStats` record. -/
structure StorageStats where
  writableBytes : Nat
  inUseBytes : Nat
  reclaimableBytes : Nat
  deriving DecidableEq, Repr

/-- The accumulation loop of `KeyValueStore::GetStorageStats`
(key_value_store.cc lines 410-433): every sector contributes its valid
bytes to `in_use_bytes` and its recoverable bytes to
`reclaimable_bytes`; the first empty sector seen is skipped for
`writable_bytes` (`found_empty_sector` flag), every other sector
contributes its writable bytes. -/
def storageStatsScan (ss : Nat) :
    List SectorDescriptor → Bool → StorageStats → StorageStats
  | [], _, acc => acc
  | s :: rest, foundEmpty, acc =>
      if foundEmpty = false ∧ s.Empty ss = true then
        storageStatsScan ss rest true
          ⟨acc.writableBytes, acc.inUseBytes + s.validBytes,
            acc.reclaimableBytes + s.RecoverableBytes ss⟩
      else
        storageStatsScan ss rest foundEmpty
          ⟨acc.writableBytes + s.writableBytes, acc.inUseBytes + s.validBytes,
            acc.reclaimableBytes + s.RecoverableBytes ss⟩

/-- `KeyValueStore::GetStorageStats`. -/
def getStorageStats (sectors : List SectorDescriptor) (ss : Nat) : StorageStats :=
  storageStatsScan ss sectors false ⟨0, 0, 0⟩

theorem statsScan_inUse (ss : Nat) :
    ∀ (l : List SectorDescriptor) (b : Bool) (acc : StorageStats),
      (storageStatsScan ss l b acc).inUseBytes
        = acc.inUseBytes + (l.map SectorDescriptor.validBytes).sum := by
  intro l
  induction l with
  | nil => intro b acc; simp [storageStatsScan]
  | cons s rest ih =>
    intro b acc
    simp only [storageStatsScan, List.map_cons, List.sum_cons]
    by_cases h : b = false ∧ s.Empty ss = true
    · rw [if_pos h, ih]
      dsimp only
      omega
    · rw [if_neg h, ih]
      dsimp only
      omega

theorem statsScan_reclaimable (ss : Nat) :
    ∀ (l : List SectorDescriptor) (b : Bool) (acc : StorageStats),
      (storageStatsScan ss l b acc).reclaimableBytes
        = acc.reclaimableBytes + (l.map (fun s => s.RecoverableBytes ss)).sum := by
  intro l
  induction l with
  | nil => intro b acc; simp [storageStatsScan]
  | cons s rest ih =>
    intro b acc
    simp only [storageStatsScan, List.map_cons, List.sum_cons]
    by_cases h : b = false ∧ s.Empty ss = true
    · rw [if_pos h, ih]
      dsimp only
      omega
    · rw [if_neg h, ih]
      dsimp only
      omega

theorem statsScan_writable_found (ss : Nat) :
    ∀ (l : List SectorDescriptor) (acc : StorageStats),
      (storageStatsScan ss l true acc).writableBytes
        = acc.writableBytes + (l.map SectorDescriptor.writableBytes).sum := by
  intro l
  induction l with
  | nil => intro acc; simp [storageStatsScan]
  | cons s rest ih =>
    intro acc
    simp only [storageStatsScan, List.map_cons, List.sum_cons]
    rw [if_neg (by simp), ih]
    dsimp only
    omega

theorem statsScan_writable_none (ss : Nat) :
    ∀ (l : List SectorDescriptor) (acc : StorageStats),
      (∀ s ∈ l, s.Empty ss = false) →
      (storageStatsScan ss l false acc).writableBytes
        = acc.writableBytes + (l.map SectorDescriptor.writableBytes).sum := by
  intro l
  induction l with
  | nil => intro acc _; simp [storageStatsScan]
  | cons s rest ih =>
    intro acc hne
    simp only [storageStatsScan, List.map_cons, List.sum_cons]
    rw [if_neg (by simp [hne s (List.mem_cons_self s rest)]), ih _
      (fun t ht => hne t (List.mem_cons_of_mem s ht))]
    dsimp only
    omega

theorem statsScan_writable_split (ss : Nat) :
    ∀ (l1 : List SectorDescriptor) (e : SectorDescriptor)
      (l2 : List SectorDescriptor) (acc : StorageStats),
      (∀ s ∈ l1, s.Empty ss = false) → e.Empty ss = true →
      (storageStatsScan ss (l1 ++ e :: l2) false acc).writableBytes
        = acc.writableBytes + (l1.map SectorDescriptor.writableBytes).sum
          + (l2.map SectorDescriptor.writableBytes).sum := by
  intro l1
  induction l1 with
  | nil =>
    intro e l2 acc _ he
    simp only [List.nil_append, storageStatsScan]
    rw [if_pos ⟨trivial, he⟩, statsScan_writable_found]
    dsimp only
    simp
  | cons s rest ih =>
    intro e l2 acc h1 he
    simp only [List.cons_append, List.append_eq, storageStatsScan,
      List.map_cons, List.sum_cons]
    rw [if_neg (by simp [h1 s (List.mem_cons_self s rest)]), ih e l2 _
      (fun t ht => h1 t (List.mem_cons_of_mem s ht)) he]
    dsimp only
    omega

/-- C9: `storage_stats` reports `in_use_bytes` as the sum of
`valid_bytes`, `reclaimable_bytes` as the sum of `recoverable_bytes`,
and `writable_bytes` as the sum of `writable_bytes` over all sectors
minus exactly the first empty sector encountered (all of it when no
sector is empty); on a freshly initialized all-erased 4-sector, 4 KiB
partition the writable space is `3 * 4096`. -/
theorem C9_storage_stats (sectors : List SectorDescriptor) (ss : Nat) :
    (getStorageStats sectors ss).inUseBytes
      = (sectors.map SectorDescriptor.validBytes).sum ∧
    (getStorageStats sectors ss).reclaimableBytes
      = (sectors.map (fun s => s.RecoverableBytes ss)).sum ∧
    ((∀ s ∈ sectors, s.Empty ss = false) →
      (getStorageStats sectors ss).writableBytes
        = (sectors.map SectorDescriptor.writableBytes).sum) ∧
    (∀ l1 e l2, sectors = l1 ++ e :: l2 → (∀ s ∈ l1, s.Empty ss = false) →
      e.Empty ss = true →
      (getStorageStats sectors ss).writableBytes
        = (l1.map SectorDescriptor.writableBytes).sum
          + (l2.map SectorDescriptor.writableBytes).sum) ∧
    getStorageStats (List.replicate 4 ⟨4096, 0⟩) 4096 = ⟨3 * 4096, 0, 0⟩ := by
  refine ⟨?_, ?_, ?_, ?_, by decide⟩
  · rw [getStorageStats, statsScan_inUse]
    simp
  · rw [getStorageStats, statsScan_reclaimable]
    simp
  · intro h
    rw [getStorageStats, statsScan_writable_none ss sectors ⟨0, 0, 0⟩ h]
    simp
  · intro l1 e l2 hsec h1 he
    subst hsec
    rw [getStorageStats, statsScan_writable_split ss l1 e l2 ⟨0, 0, 0⟩ h1 he]
    simp

/-- Witness for C9: with sector size 50, the table
`[⟨20, 10⟩, ⟨50, 0⟩, ⟨50, 0⟩]` has its first empty sector (the second)
excluded from writable space, while the second empty sector counts. -/
theorem C9_storage_stats_witness :
    (getStorageStats [⟨20, 10⟩, ⟨50, 0⟩, ⟨50, 0⟩] 50).writableBytes
      = ([(⟨20, 10⟩ : SectorDescriptor)].map SectorDescriptor.writableBytes).sum
        + ([(⟨50, 0⟩ : SectorDescriptor)].map SectorDescriptor.writableBytes).sum :=
  (C9_storage_stats [⟨20, 10⟩, ⟨50, 0⟩, ⟨50, 0⟩] 50).2.2.2.1
    [⟨20, 10⟩] ⟨50, 0⟩ [⟨50, 0⟩] rfl (by decide) (by decide)

/-- Placeholder descriptor used as the out-of-range default of `getD`. -/
def dummyDescriptor : KeyDescriptor :=
  ⟨0, 0, [], EntryState.valid⟩

/-- The loop of `KeyValueStore::FindKeyDescriptor` (key_value_store.cc
lines 737-758): scan the descriptor table for the first hash match; on a
match, read the first `key.size()` bytes of the stored key from flash at
the descriptor's address and compare - equal gives OK with the
descriptor, different gives ALREADY_EXISTS; no hash match gives
NOT_FOUND.  `flashKey a` models (spec-modelled, entry.cc is not under
src/) the key bytes readable at address `a`; `base` is the index of the
first descriptor of the remaining list. -/
def findKeyStep (flashKey : Nat → List Nat) (key : List Nat) (h : Nat) :
    List KeyDescriptor → Nat → Status × Option Nat
  | [], _ => (Status.notFound, none)
  | kd :: rest, base =>
      if kd.hash = h then
        if (flashKey kd.address).take key.length = key then (Status.ok, some base)
        else (Status.alreadyExists, none)
      else findKeyStep flashKey key h rest (base + 1)

/-- `KeyValueStore::FindKeyDescriptor`: scan with the query key's hash
(`internal::Hash` is spec-modelled as the parameter `hashFn`). -/
def findKeyDescriptor (flashKey : Nat → List Nat) (hashFn : List Nat → Nat)
    (kds : List KeyDescriptor) (key : List Nat) : Status × Option Nat :=
  findKeyStep flashKey key (hashFn key) kds 0

/-- `KeyValueStore::FindExistingKeyDescriptor` (key_value_store.cc lines
766-777): a hash collision or a descriptor in the Deleted state is
reported as NOT_FOUND. -/
def findExistingKeyDescriptor (flashKey : Nat → List Nat) (hashFn : List Nat → Nat)
    (kds : List KeyDescriptor) (key : List Nat) : Status × Option Nat :=
  match findKeyDescriptor flashKey hashFn kds key with
  | (Status.ok, some i) =>
      if (kds.getD i dummyDescriptor).state = EntryState.deleted
      then (Status.notFound, none) else (Status.ok, some i)
  | (Status.alreadyExists, _) => (Status.notFound, none)
  | r => r

/-- `KeyValueStore::Delete` (key_value_store.cc lines 596-609) at the
descriptor-table level: find the existing (non-deleted) descriptor, then
`WriteEntryForExistingKey` appends a tombstone through the append
protocol.  `appendStatus` is the oracle for the combined fallible steps
(original-entry read, sector search, tombstone write and verify); on
success the found descriptor is updated in place via `UpdateDescriptor`
(entry.h lines 94-98): bumped transaction id, the tombstone's address as
the only address, state Deleted.  On any failure the table is unchanged. -/
def kvsDelete (flashKey : Nat → List Nat) (hashFn : List Nat → Nat)
    (kds : List KeyDescriptor) (key : List Nat)
    (appendStatus : Status) (newAddress lastTid : Nat) : Status × List KeyDescriptor :=
  match findExistingKeyDescriptor flashKey hashFn kds key with
  | (Status.ok, some i) =>
      if appendStatus = Status.ok then
        (Status.ok, kds.set i ⟨(kds.getD i dummyDescriptor).hash,
          bumpTransactionId lastTid, [newAddress], EntryState.deleted⟩)
      else (appendStatus, kds)
  | (st, _) => (st, kds)

/-- Iteration over the store (`begin` at key_value_store.cc lines
628-635 and `operator++` at lines 620-626): descriptors are yielded in
table order, skipping every descriptor in the Deleted state. -/
def kvsItems (kds : List KeyDescriptor) : List KeyDescriptor :=
  kds.filter (fun kd => decide (kd.state ≠ EntryState.deleted))

theorem getD_set_self :
    ∀ (l : List KeyDescriptor) (i : Nat) (a d : KeyDescriptor), i < l.length →
      (l.set i a).getD i d = a := by
  intro l
  induction l with
  | nil => intro i a d h; exact absurd h (Nat.not_lt_zero i)
  | cons x xs ih =>
    intro i a d h
    cases i with
    | zero => rfl
    | succ n => exact ih n a d (Nat.lt_of_succ_lt_succ (by simpa using h))

theorem getD_set_ne :
    ∀ (l : List KeyDescriptor) (i j : Nat) (a d : KeyDescriptor), i ≠ j →
      (l.set i a).getD j d = l.getD j d := by
  intro l
  induction l with
  | nil => intro i j a d _; rfl
  | cons x xs ih =>
    intro i j a d hne
    cases i with
    | zero =>
      cases j with
      | zero => exact absurd rfl hne
      | succ m => rfl
    | succ n =>
      cases j with
      | zero => rfl
      | succ m => exact ih n m a d (fun he => hne (by rw [he]))

theorem mem_exists_getD :
    ∀ (l : List KeyDescriptor) (kd : KeyDescriptor), kd ∈ l →
      ∃ j, j < l.length ∧ l.getD j dummyDescriptor = kd := by
  intro l
  induction l with
  | nil => intro kd h; exact absurd h (List.not_mem_nil kd)
  | cons x xs ih =>
    intro kd h
    rcases List.mem_cons.mp h with he | hm
    · exact ⟨0, by simp, he.symm⟩
    · obtain ⟨j, hj, hg⟩ := ih kd hm
      exact ⟨j + 1, by simp only [List.length_cons]; omega, by simpa using hg⟩

theorem findKeyStep_shape (flashKey : Nat → List Nat) (key : List Nat) (h : Nat) :
    ∀ (l : List KeyDescriptor) (base : Nat),
      (∃ i, findKeyStep flashKey key h l base = (Status.ok, some i)) ∨
      findKeyStep flashKey key h l base = (Status.alreadyExists, none) ∨
      findKeyStep flashKey key h l base = (Status.notFound, none) := by
  intro l
  induction l with
  | nil => intro base; exact Or.inr (Or.inr rfl)
  | cons kd rest ih =>
    intro base
    simp only [findKeyStep]
    by_cases h1 : kd.hash = h
    · rw [if_pos h1]
      by_cases h2 : (flashKey kd.address).take key.length = key
      · rw [if_pos h2]
        exact Or.inl ⟨base, rfl⟩
      · rw [if_neg h2]
        exact Or.inr (Or.inl rfl)
    · rw [if_neg h1]
      exact ih (base + 1)

theorem findKeyStep_ok (flashKey : Nat → List Nat) (key : List Nat) (h : Nat) :
    ∀ (l : List KeyDescriptor) (base i : Nat),
      findKeyStep flashKey key h l base = (Status.ok, some i) →
      ∃ j, j < l.length ∧ i = base + j ∧ (l.getD j dummyDescriptor).hash = h := by
  intro l
  induction l with
  | nil => intro base i he; simp [findKeyStep] at he
  | cons kd rest ih =>
    intro base i he
    simp only [findKeyStep] at he
    by_cases h1 : kd.hash = h
    · rw [if_pos h1] at he
      by_cases h2 : (flashKey kd.address).take key.length = key
      · rw [if_pos h2] at he
        have hbi : some base = some i := congrArg Prod.snd he
        have : base = i := by simpa using hbi
        exact ⟨0, by simp, by omega, by simpa using h1⟩
      · rw [if_neg h2] at he
        exact Status.noConfusion (congrArg Prod.fst he)
    · rw [if_neg h1] at he
      obtain ⟨j, hj, hij, hjh⟩ := ih (base + 1) i he
      exact ⟨j + 1, by simp only [List.length_cons]; omega, by omega, by simpa using hjh⟩

theorem findKeyStep_found (flashKey : Nat → List Nat) (key : List Nat) (h : Nat) :
    ∀ (l : List KeyDescriptor) (base k : Nat), k < l.length →
      (∀ j, j < k → (l.getD j dummyDescriptor).hash ≠ h) →
      (l.getD k dummyDescriptor).hash = h →
      (flashKey (l.getD k dummyDescriptor).address).take key.length = key →
      findKeyStep flashKey key h l base = (Status.ok, some (base + k)) := by
  intro l
  induction l with
  | nil => intro base k hk; exact absurd hk (Nat.not_lt_zero k)
  | cons kd rest ih =>
    intro base k hk hprev hhash htake
    cases k with
    | zero =>
      simp only [findKeyStep]
      rw [if_pos (by simpa using hhash), if_pos (by simpa using htake)]
      simp
    | succ k =>
      have h0 : kd.hash ≠ h := by
        have := hprev 0 (Nat.succ_pos k)
        simpa using this
      simp only [findKeyStep]
      rw [if_neg h0]
      have h' := ih (base + 1) k (by simp only [List.length_cons] at hk; omega)
        (fun j hj => by
          have := hprev (j + 1) (Nat.succ_lt_succ hj)
          simpa using this)
        (by simpa using hhash) (by simpa using htake)
      rw [show base + 1 + k = base + (k + 1) by omega] at h'
      exact h'

/-- C8: after a successful `Delete(key)` (the key's hash being unique in
the descriptor table, and the tombstone's key bytes readable at the new
address), a lookup through `FindExistingKeyDescriptor` - the path `Get`
takes - reports NotFound; the descriptor is not removed (same table
length) and persists in the Deleted state under the key's hash; and
iteration yields no item for the key. -/
theorem C8_delete_semantics (flashKey : Nat → List Nat) (hashFn : List Nat → Nat)
    (kds kds' : List KeyDescriptor) (key : List Nat) (newAddress lastTid : Nat)
    (huniq : ∀ i j, i < kds.length → j < kds.length →
      (kds.getD i dummyDescriptor).hash = hashFn key →
      (kds.getD j dummyDescriptor).hash = hashFn key → i = j)
    (htomb : (flashKey newAddress).take key.length = key)
    (hdel : kvsDelete flashKey hashFn kds key Status.ok newAddress lastTid
      = (Status.ok, kds')) :
    findExistingKeyDescriptor flashKey hashFn kds' key = (Status.notFound, none) ∧
    kds'.length = kds.length ∧
    (∃ i, i < kds'.length ∧ (kds'.getD i dummyDescriptor).state = EntryState.deleted ∧
      (kds'.getD i dummyDescriptor).hash = hashFn key) ∧
    (∀ kd ∈ kvsItems kds', kd.hash ≠ hashFn key) := by
  rcases findKeyStep_shape flashKey key (hashFn key) kds 0 with ⟨i, hok⟩ | hae | hnf
  · obtain ⟨j, hjlen, hij, hjh⟩ := findKeyStep_ok flashKey key (hashFn key) kds 0 i hok
    have hij' : i = j := by omega
    subst hij'
    by_cases hst : (kds.getD i dummyDescriptor).state = EntryState.deleted
    · have hfe : findExistingKeyDescriptor flashKey hashFn kds key
          = (Status.notFound, none) := by
        unfold findExistingKeyDescriptor findKeyDescriptor
        rw [hok]
        show (if (kds.getD i dummyDescriptor).state = EntryState.deleted
            then ((Status.notFound, none) : Status × Option Nat)
            else (Status.ok, some i)) = (Status.notFound, none)
        rw [if_pos hst]
      have hd : kvsDelete flashKey hashFn kds key Status.ok newAddress lastTid
          = (Status.notFound, kds) := by
        unfold kvsDelete
        rw [hfe]
      rw [hd] at hdel
      exact Status.noConfusion (congrArg Prod.fst hdel)
    · have hfe : findExistingKeyDescriptor flashKey hashFn kds key
          = (Status.ok, some i) := by
        unfold findExistingKeyDescriptor findKeyDescriptor
        rw [hok]
        show (if (kds.getD i dummyDescriptor).state = EntryState.deleted
            then ((Status.notFound, none) : Status × Option Nat)
            else (Status.ok, some i)) = (Status.ok, some i)
        rw [if_neg hst]
      have hd : kvsDelete flashKey hashFn kds key Status.ok newAddress lastTid
          = (Status.ok, kds.set i ⟨(kds.getD i dummyDescriptor).hash,
              bumpTransactionId lastTid, [newAddress], EntryState.deleted⟩) := by
        unfold kvsDelete
        rw [hfe]
        rfl
      rw [hd] at hdel
      have hset : kds' = kds.set i ⟨(kds.getD i dummyDescriptor).hash,
          bumpTransactionId lastTid, [newAddress], EntryState.deleted⟩ :=
        (congrArg Prod.snd hdel).symm
      have hlen : kds'.length = kds.length := by
        rw [hset, List.length_set]
      have hgj : kds'.getD i dummyDescriptor
          = ⟨(kds.getD i dummyDescriptor).hash, bumpTransactionId lastTid,
              [newAddress], EntryState.deleted⟩ := by
        rw [hset]
        exact getD_set_self kds i _ dummyDescriptor hjlen
      have hgne : ∀ m, m ≠ i →
          kds'.getD m dummyDescriptor = kds.getD m dummyDescriptor := by
        intro m hm
        rw [hset]
        exact getD_set_ne kds i m _ dummyDescriptor (fun he => hm he.symm)
      have hfind' : findKeyStep flashKey key (hashFn key) kds' 0
          = (Status.ok, some (0 + i)) := by
        apply findKeyStep_found
        · rw [hlen]
          exact hjlen
        · intro m hm hcon
          have hmne : m ≠ i := by omega
          rw [hgne m hmne] at hcon
          have := huniq m i (by omega) hjlen hcon hjh
          omega
        · rw [hgj]
          exact hjh
        · rw [hgj]
          exact htomb
      rw [Nat.zero_add] at hfind'
      refine ⟨?_, hlen, ⟨i, ?_, ?_, ?_⟩, ?_⟩
      · unfold findExistingKeyDescriptor findKeyDescriptor
        rw [hfind']
        show (if (kds'.getD i dummyDescriptor).state = EntryState.deleted
            then ((Status.notFound, none) : Status × Option Nat)
            else (Status.ok, some i)) = (Status.notFound, none)
        rw [if_pos (by rw [hgj])]
      · omega
      · rw [hgj]
      · rw [hgj]
        exact hjh
      · intro kd hkd hcon
        simp only [kvsItems] at hkd
        obtain ⟨hmem, hp⟩ := List.mem_filter.mp hkd
        have hnd : kd.state ≠ EntryState.deleted := of_decide_eq_true hp
        obtain ⟨m, hmlen, hgm⟩ := mem_exists_getD kds' kd hmem
        by_cases hmi : m = i
        · subst hmi
          rw [hgj] at hgm
          rw [← hgm] at hnd
          exact hnd rfl
        · rw [hgne m hmi] at hgm
          have hmh : (kds.getD m dummyDescriptor).hash = hashFn key := by
            rw [hgm]
            exact hcon
          exact hmi (huniq m i (by omega) hjlen hmh hjh)
  · have hfe : findExistingKeyDescriptor flashKey hashFn kds key
        = (Status.notFound, none) := by
      unfold findExistingKeyDescriptor findKeyDescriptor
      rw [hae]
    have hd : kvsDelete flashKey hashFn kds key Status.ok newAddress lastTid
        = (Status.notFound, kds) := by
      unfold kvsDelete
      rw [hfe]
    rw [hd] at hdel
    exact Status.noConfusion (congrArg Prod.fst hdel)
  · have hfe : findExistingKeyDescriptor flashKey hashFn kds key
        = (Status.notFound, none) := by
      unfold findExistingKeyDescriptor findKeyDescriptor
      rw [hnf]
    have hd : kvsDelete flashKey hashFn kds key Status.ok newAddress lastTid
        = (Status.notFound, kds) := by
      unfold kvsDelete
      rw [hfe]
    rw [hd] at hdel
    exact Status.noConfusion (congrArg Prod.fst hdel)

/-- Witness for C8: deleting the single key `[7]` (hash 1 under the
length hash) of a one-descriptor table, with the tombstone at address
64; the lookup reports NotFound, the deleted descriptor persists and no
item is yielded. -/
theorem C8_delete_semantics_witness :
    findExistingKeyDescriptor (fun _ => [7]) (fun k => k.length)
        [⟨1, 4, [64], EntryState.deleted⟩] [7] = (Status.notFound, none) ∧
    ([⟨1, 4, [64], EntryState.deleted⟩] : List KeyDescriptor).length
      = ([⟨1, 0, [0], EntryState.valid⟩] : List KeyDescriptor).length ∧
    (∃ i, i < ([⟨1, 4, [64], EntryState.deleted⟩] : List KeyDescriptor).length ∧
      (([⟨1, 4, [64], EntryState.deleted⟩] : List KeyDescriptor).getD i
        dummyDescriptor).state = EntryState.deleted ∧
      (([⟨1, 4, [64], EntryState.deleted⟩] : List KeyDescriptor).getD i
        dummyDescriptor).hash = (fun k : List Nat => k.length) [7]) ∧
    (∀ kd ∈ kvsItems [⟨1, 4, [64], EntryState.deleted⟩],
      kd.hash ≠ (fun k : List Nat => k.length) [7]) :=
  C8_delete_semantics (fun _ => [7]) (fun k => k.length)
    [⟨1, 0, [0], EntryState.valid⟩] [⟨1, 4, [64], EntryState.deleted⟩] [7] 64 3
    (by intro i j hi hj _ _; simp only [List.length_cons, List.length_nil] at hi hj; omega)
    (by decide) (by decide)
